import Mathlib

/-!
Verification of the job-extraction pipeline (`app/services/processor.py` and
`app/services/ai_agent.py`) against its natural-language specification.

Text is modelled as `List Char` (Python strings are sequences of code
points). The external collaborators — web scraper, PDF extractor and the
LLM dependency — are modelled as explicit function-valued parameters
gathered in a `World`; the LLM is abstracted at the granularity the code
observes it: per chunk, its invocation either yields a parsed list of job
dicts or raises one of the exception classes the code catches.
-/

/-- Python strings, modelled as lists of characters. -/
abbrev Str := List Char

/-- Python `str.lower()` (character-wise, as used on ASCII keyword data). -/
def pyLower (s : Str) : Str := s.map Char.toLower

/-- Python `str.strip()`: remove leading and trailing whitespace. -/
def pyStrip (s : Str) : Str :=
  ((s.dropWhile Char.isWhitespace).reverse.dropWhile Char.isWhitespace).reverse

/-- The literal prefix used by `startswith('http')` in the source. -/
def httpMarker : Str := "http".toList

/-- Python `value.startswith('http')`. -/
def startsWithHttp (s : Str) : Bool := httpMarker.isPrefixOf s

/-- Python truthiness-based fallback `a or b` for optional strings:
`None` and the empty string both fall back. -/
def orDefault (o : Option Str) (d : Str) : Str :=
  match o with
  | some s => if s.isEmpty then d else s
  | none => d

/-! ## Date parsing (`JobProcessor._parse_date`) -/

/-- A Python `datetime.date`. -/
structure PyDate where
  year : Nat
  month : Nat
  day : Nat
deriving DecidableEq

/-- Value of a decimal digit string (callers guarantee all-digit input). -/
def digitsToNat (s : Str) : Nat := s.foldl (fun a c => a * 10 + (c.toNat - 48)) 0

/-- Non-empty all-digit string. -/
def allDigits (s : Str) : Bool := !s.isEmpty && s.all Char.isDigit

/-- Gregorian leap-year rule, as in `datetime`. -/
def isLeapYear (y : Nat) : Bool := y % 4 = 0 && (y % 100 != 0 || y % 400 = 0)

/-- Days per month, as validated by `datetime.date`. -/
def daysInMonth (y m : Nat) : Nat :=
  if m = 2 then (if isLeapYear y then 29 else 28)
  else if m = 4 ∨ m = 6 ∨ m = 9 ∨ m = 11 then 30
  else 31

/-- The `%Y` directive of `strptime`: exactly four digits. -/
def matchYear (s : Str) : Option Nat :=
  if s.length = 4 ∧ allDigits s = true then some (digitsToNat s) else none

/-- The `%m`/`%d` directives of `strptime`: one or two digits whose value
lies in `lo..hi` (months `1..12`, days `1..31`). -/
def matchField (lo hi : Nat) (s : Str) : Option Nat :=
  if (s.length = 1 ∨ s.length = 2) ∧ allDigits s = true
      ∧ lo ≤ digitsToNat s ∧ digitsToNat s ≤ hi then
    some (digitsToNat s)
  else none

/-- `datetime.date(y, m, d)` construction: year at least 1 (`MINYEAR`) and a
day that exists in the month; otherwise `ValueError`, i.e. `none`. -/
def mkValidDate (y m d : Nat) : Option PyDate :=
  if 1 ≤ y ∧ d ≤ daysInMonth y m then some ⟨y, m, d⟩ else none

/-- `strptime(s, "%Y<sep>%m<sep>%d")` for a single-character separator. -/
def parseYMD (sep : Char) (s : Str) : Option PyDate :=
  match s.splitOn sep with
  | [ys, ms, ds] =>
    match matchYear ys, matchField 1 12 ms, matchField 1 31 ds with
    | some y, some m, some d => mkValidDate y m d
    | _, _, _ => none
  | _ => none

/-- `strptime(s, "%d<sep>%m<sep>%Y")` for a single-character separator. -/
def parseDMY (sep : Char) (s : Str) : Option PyDate :=
  match s.splitOn sep with
  | [ds, ms, ys] =>
    match matchYear ys, matchField 1 12 ms, matchField 1 31 ds with
    | some y, some m, some d => mkValidDate y m d
    | _, _, _ => none
  | _ => none

/-- `JobProcessor._parse_date`: empty input yields `None`; otherwise try
ISO `%Y-%m-%d`, then dotted `%d.%m.%Y`, then slash `%d/%m/%Y`; if all fail,
log and return `None`. -/
def parse_date (s : Str) : Option PyDate :=
  if s.isEmpty then none
  else
    match parseYMD '-' s with
    | some d => some d
    | none =>
      match parseDMY '.' s with
      | some d => some d
      | none =>
        match parseDMY '/' s with
        | some d => some d
        | none => none

/-- `_parse_date` applied to an optional value: `None` input is falsy and
yields `None` (the `if not date_str` guard). -/
def parse_date_opt : Option Str → Option PyDate
  | none => none
  | some s => parse_date s

/-! ## Content chunking (`AIAgent._chunk_content`) -/

/-- Python `content.rfind(ab, pos, pos+|w|)` restricted to a window `w`, for a
two-character pattern: the largest index `j` with `w[j] = a`, `w[j+1] = b`
(so `j + 2 ≤ |w|`), or `none`. -/
def rfind2 (a b : Char) : Str → Option Nat
  | [] => none
  | [_] => none
  | x :: y :: rest =>
    match rfind2 a b (y :: rest) with
    | some j => some (j + 1)
    | none => if x = a ∧ y = b then some 0 else none

/-- The sentence-break fallback of `_chunk_content`: the last `". "` in the
window, provided it starts strictly after the window start; the break point
keeps the period (`sentence_break + 1`); otherwise the raw window end `B`. -/
def sentenceEnd (B : Nat) (w : Str) : Nat :=
  match rfind2 '.' ' ' w with
  | some k => if 0 < k then k + 1 else B
  | none => B

/-- One iteration of `_chunk_content`'s loop: the offset of the next chunk
end relative to `current_pos`, for remaining content `s`. Only when the raw
window end falls strictly inside the content is a paragraph break
(`"\n\n"`, strictly after the window start) tried, then a sentence break,
then the raw end. -/
def chunkStep (B : Nat) (s : Str) : Nat :=
  if B < s.length then
    match rfind2 '\n' '\n' (s.take B) with
    | some j => if 0 < j then j else sentenceEnd B (s.take B)
    | none => sentenceEnd B (s.take B)
  else B

/-- The chunking loop, fuelled for structural recursion: each iteration
consumes at least one character when `1 ≤ B` (for `B = 0` the Python loop
does not terminate, and no caller passes `B = 0`), so fuel equal to the
content length suffices. -/
def chunkLoopGo : Nat → Nat → Str → List Str
  | 0, _, _ => []
  | fuel + 1, B, s =>
    match s with
    | [] => []
    | c :: rest =>
      ((c :: rest).take (chunkStep B (c :: rest)))
        :: chunkLoopGo fuel B ((c :: rest).drop (chunkStep B (c :: rest)))

/-- `AIAgent._chunk_content(content, max_length)`: content that already fits
is returned as a single chunk; otherwise the windowed loop runs. -/
def chunk_content (content : Str) (max_length : Nat) : List Str :=
  if content.length ≤ max_length then [content]
  else chunkLoopGo content.length max_length content

/-- `AIAgent.MAX_CHUNK_LENGTH`. -/
def MAX_CHUNK_LENGTH : Nat := 12000

/-! ## Extraction service (`AIAgent.extract_multiple_jobs`) -/

/-- One job dict parsed out of the LLM's JSON answer (`RawJobRecord`).
`hasJob` models `job.get('hasJob', False)`; every other field is optional. -/
structure RawJob where
  hasJob : Bool := false
  name : Option Str := none
  salary : Option Str := none
  homeOfficeOption : Option Bool := none
  period : Option Str := none
  employmentType : Option Str := none
  applicationDate : Option Str := none
  occupyStart : Option Str := none
  foundOn : Option Str := none
  comments : Option Str := none
deriving DecidableEq

/-- What one `llm.invoke` + fence-stripping + `json.loads` round observes for
one chunk: a parsed list of job dicts (a lone dict is wrapped into a
one-element list by the code), or one of the exception classes the code
catches: a connection error, a `json.JSONDecodeError`, or any other
exception. -/
inductive ChunkOutcome where
  | ok (jobs : List RawJob)
  | connError (msg : Str)
  | parseError (msg : Str)
  | otherError (msg : Str)

/-- A bare `{"hasJob": False, "comments": msg}` dict. -/
def errRecord (msg : Str) : RawJob := { hasJob := false, comments := some msg }

/-- Comment of the canonical "nothing found" sentinel. -/
def keinText : Str := "Keine passenden Verwaltungsstellen gefunden".toList

/-- The canonical sentinel returned when no chunk yields a positive job. -/
def keinSentinel : RawJob := errRecord keinText

/-- Comment of the sentinel returned when the agent is disabled. -/
def disabledText : Str :=
  "AI analysis disabled - langchain-huggingface or transformers not installed or models not available".toList

/-- `comments` prefixes of the three exception handlers. -/
def connErrText : Str := "Cannot load Hugging Face models: ".toList

/-- Prefix of the `json.JSONDecodeError` handler's comment. -/
def parseErrText : Str := "Error parsing AI response: ".toList

/-- Prefix of the generic exception handler's comment. -/
def otherErrText : Str := "Error analyzing content: ".toList

/-- Normalised job title used by the deduplication step:
`(job.get('name') or '').lower().strip()`. -/
def normName (j : RawJob) : Str := pyStrip (pyLower (j.name.getD []))

/-- Per-chunk post-processing of positive jobs: `homeOfficeOption` is forced
to a boolean, and `foundOn` is forced to `source_url` unless it is already a
string starting with `'http'`. Negative records are left untouched. -/
def postProcessJob (source_url : Str) (j : RawJob) : RawJob :=
  if j.hasJob then
    { j with
      homeOfficeOption := some (j.homeOfficeOption.getD false),
      foundOn :=
        match j.foundOn with
        | some s => if startsWithHttp s then some s else some source_url
        | none => some source_url }
  else j

/-- The dedup loop of `extract_multiple_jobs`: first occurrence of each
non-empty normalised name is kept, later ones dropped; records with an
empty normalised name are always kept. -/
def dedupAux : List RawJob → List Str → List RawJob
  | [], _ => []
  | j :: rest, seen =>
    if normName j ≠ [] ∧ normName j ∉ seen then
      j :: dedupAux rest (normName j :: seen)
    else if normName j = [] then
      j :: dedupAux rest seen
    else
      dedupAux rest seen

/-- Deduplicate jobs by normalised name, starting from an empty seen-set. -/
def dedupJobs (jobs : List RawJob) : List RawJob := dedupAux jobs []

/-- The `for chunk_idx, chunk in enumerate(chunks)` loop. Each chunk's
outcome is post-processed and, for every chunk after the first, stripped of
its `hasJob = False` records; outcomes accumulate in order. Because the
`try` of `extract_multiple_jobs` wraps the whole loop, the first chunk that
raises aborts the loop and everything accumulated so far: the loop's result
is then just the handler's single error record. -/
def runChunks (llm : Str → ChunkOutcome) (source_url : Str) :
    List Str → Nat → Except RawJob (List RawJob)
  | [], _ => .ok []
  | c :: rest, idx =>
    match llm c with
    | .ok result =>
      let result := result.map (postProcessJob source_url)
      let result := if 0 < idx then result.filter (·.hasJob) else result
      match runChunks llm source_url rest (idx + 1) with
      | .ok more => .ok (result ++ more)
      | .error e => .error e
    | .connError m => .error (errRecord (connErrText ++ m))
    | .parseError m => .error (errRecord (parseErrText ++ m))
    | .otherError m => .error (errRecord (otherErrText ++ m))

/-- `AIAgent.extract_multiple_jobs`: chunk the content, run the LLM per
chunk, flatten, keep only positive records, deduplicate by normalised name,
and fall back to the canonical sentinel when nothing positive remains.
`location` and `website` only enter the prompt and do not influence the
observable result beyond the LLM parameter itself. -/
def extract_multiple_jobs (llm : Str → ChunkOutcome) (enabled : Bool)
    (location website website_to_jobs : Str) (page_content : Str)
    (source_url : Option Str) : List RawJob :=
  if !enabled then [errRecord disabledText]
  else
    let su := source_url.getD website_to_jobs
    let chunks := chunk_content page_content MAX_CHUNK_LENGTH
    match runChunks llm su chunks 0 with
    | .error e => [e]
    | .ok all_jobs =>
      let filtered := all_jobs.filter (·.hasJob)
      let deduped := dedupJobs filtered
      if deduped.isEmpty then [keinSentinel] else deduped

/-! ## Data model of the processor (`app/services/processor.py`) -/

/-- A link extracted by the scraper (`ExtractedLink`): `link_type` is one of
the strings `'webpage'`, `'pdf'`, `'image'`, `'other'`. -/
structure Link where
  url : Str
  link_type : Str
  title : Option Str := none
deriving DecidableEq

/-- Modelled from the spec: the §3 OrganizationEntry (the `WebsiteEntry`
with `location`/`website`/`websiteToJobs` that `processor.py` and
`excel_reader.py` consume is absent from `src/app/models`, which holds an
older model set): an id, a location, a website URL and an optional jobs
URL. -/
structure Entry where
  id : Int := 0
  location : Str
  website : Str
  websiteToJobs : Option Str := none
deriving DecidableEq

/-- Modelled from the spec: the §3 JobRecord / output `TableRow` (absent
from `src/app/models`; its field set, including `occupyStart`, and its
`None` defaults are corroborated by the repository's serialization tests):
entry context plus the normalised job fields, dates canonical. -/
structure TableRow where
  location : Str
  website : Str
  websiteToJobs : Str
  hasJob : Bool := false
  name : Option Str := none
  salary : Option Str := none
  homeOfficeOption : Option Bool := none
  period : Option Str := none
  employmentType : Option Str := none
  applicationDate : Option PyDate := none
  occupyStart : Option PyDate := none
  foundOn : Option Str := none
  comments : Option Str := none
deriving DecidableEq

/-- The external collaborators, as the processor observes them: the web
scraper (may raise, carrying an error message), the PDF text extractor
(never raises; `None` on failure), the per-chunk LLM outcome, and whether
the agent initialised (`AIAgent.enabled`). -/
structure World where
  enabled : Bool := true
  scrape : Str → Except Str (Str × List Link)
  extractPdf : Str → Option Str
  llm : Str → ChunkOutcome

/-- `scrape_url = entry.websiteToJobs if entry.websiteToJobs else entry.website`. -/
def scrapeTarget (e : Entry) : Str := orDefault e.websiteToJobs e.website

/-- Python `link.title or link.url`. -/
def linkTitleOrUrl (l : Link) : Str :=
  match l.title with
  | some t => if t.isEmpty then l.url else t
  | none => l.url

/-- Python `needle in hay` for strings: some suffix of `hay` starts with
`needle` (true for the empty needle). -/
def strContains (needle : Str) : Str → Bool
  | [] => needle.isEmpty
  | c :: rest => needle.isPrefixOf (c :: rest) || strContains needle rest

/-- The job-related keywords scanned over link text and link URL. -/
def jobKeywords : List Str :=
  ["job".toList, "career".toList, "position".toList, "vacancy".toList,
   "opening".toList, "stelle".toList, "karriere".toList]

/-- A webpage link counts as job-related when any keyword occurs in its
lower-cased anchor text (`link.title or ''`) or lower-cased URL. -/
def isJobRelated (l : Link) : Bool :=
  let link_text := pyLower (match l.title with | some t => t | none => [])
  let link_url := pyLower l.url
  jobKeywords.any (fun kw => strContains kw link_text || strContains kw link_url)

/-- The `'pdf'` literal compared against `link.link_type`. -/
def pdfType : Str := "pdf".toList

/-- The `'webpage'` literal compared against `link.link_type`. -/
def webpageType : Str := "webpage".toList

/-- `[link for link in links if link.link_type == 'pdf']`. -/
def pdfLinksOf (links : List Link) : List Link :=
  links.filter (fun l => l.link_type == pdfType)

/-- The job link selection loop (webpage links with a job-related keyword). -/
def jobLinksOf (links : List Link) : List Link :=
  links.filter (fun l => l.link_type == webpageType && isJobRelated l)

/-- A single quote character, used inside the content headers. -/
def sqChar : Char := Char.ofNat 39

/-- Header of the main-page content unit, `"Main page content:\n"`. -/
def mainHeader : Str := "Main page content:\n".toList

/-- The batch main-page content unit (untruncated). -/
def mainPageUnit (page_text : Str) : Str := mainHeader ++ page_text

/-- The batch PDF content unit: `"\nPDF content from '<title-or-url>':\n"`
followed by the whole extracted text. -/
def pdfUnitB (l : Link) (t : Str) : Str :=
  "\nPDF content from ".toList ++ [sqChar] ++ linkTitleOrUrl l ++ [sqChar] ++ ":\n".toList ++ t

/-- The batch job-detail content unit: header followed by the first 3000
characters of the linked page (`linked_page_text[:3000]`). -/
def jobPageUnitB (l : Link) (t : Str) : Str :=
  "\nJob detail page ".toList ++ [sqChar] ++ linkTitleOrUrl l ++ [sqChar] ++ ":\n".toList ++ t.take 3000

/-- The `all_content` list of `_process_single_entry`: the main page, then
up to 3 PDFs whose extraction yielded truthy text, then up to 3 job-related
links whose scrape succeeded. -/
def batchContentUnits (w : World) (page_text : Str) (links : List Link) : List Str :=
  let pdfParts := ((pdfLinksOf links).take 3).filterMap (fun pl =>
    match w.extractPdf pl.url with
    | some t => if t.isEmpty then none else some (pdfUnitB pl t)
    | none => none)
  let jobParts := ((jobLinksOf links).take 3).filterMap (fun jl =>
    match w.scrape jl.url with
    | .ok (t, _) => some (jobPageUnitB jl t)
    | .error _ => none)
  mainPageUnit page_text :: (pdfParts ++ jobParts)

/-- Separator of `"\n\n".flatten(all_content)`. -/
def joinSep : Str := "\n\n".toList

/-- `combined_content = "\n\n".flatten(all_content)`. -/
def batchCombined (w : World) (page_text : Str) (links : List Link) : Str :=
  List.intercalate joinSep (batchContentUnits w page_text links)

/-- What batch mode passes to the AI: `combined_content[:15000]`. -/
def batchExtractIn (w : World) (page_text : Str) (links : List Link) : Str :=
  (batchCombined w page_text links).take 15000

/-- `JobProcessor._create_table_row`: parse `applicationDate` when truthy,
fall back `websiteToJobs`, and let a truthy `found_on` argument override the
job's own `foundOn`. The job's `occupyStart` string is not read. -/
def create_table_row (entry : Entry) (job : RawJob) (found_on : Option Str) : TableRow :=
  { location := entry.location
    website := entry.website
    websiteToJobs := orDefault entry.websiteToJobs entry.website
    hasJob := job.hasJob
    name := job.name
    salary := job.salary
    homeOfficeOption := job.homeOfficeOption
    period := job.period
    employmentType := job.employmentType
    applicationDate :=
      match job.applicationDate with
      | some ds => if ds.isEmpty then none else parse_date ds
      | none => none
    occupyStart := none
    foundOn :=
      match found_on with
      | some f => if f.isEmpty then job.foundOn else some f
      | none => job.foundOn
    comments := job.comments }

/-- Comment prefix of the scrape-failure row. -/
def scrapeErrText : Str := "Error scraping website: ".toList

/-- The single row returned when scraping the entry's jobs page raises. -/
def scrapeErrorRow (entry : Entry) (msg : Str) : TableRow :=
  { location := entry.location
    website := entry.website
    websiteToJobs := orDefault entry.websiteToJobs entry.website
    hasJob := false
    comments := some (scrapeErrText ++ msg) }

/-- `JobProcessor._process_single_entry` (batch mode): scrape the jobs page
(fatal on failure), gather main page + PDFs + job-detail pages into one
combined content, run one extraction over its first 15000 characters, and
emit one row per returned job. -/
def process_single_entry (w : World) (entry : Entry) : List TableRow :=
  match w.scrape (scrapeTarget entry) with
  | .error e => [scrapeErrorRow entry e]
  | .ok (page_text, links) =>
    (extract_multiple_jobs w.llm w.enabled entry.location entry.website
        (scrapeTarget entry) (batchExtractIn w page_text links) none).map
      (fun job => create_table_row entry job none)

/-- `JobProcessor.process_all_jobs` over a given entry list: concatenate
each entry's rows. (The per-entry `try/except` of the source converts any
residual exception into an error row; in this embedding entry processing is
total, so the handler is unreachable.) -/
def process_all_jobs (w : World) (entries : List Entry) : List TableRow :=
  (entries.map (process_single_entry w)).flatten

/-- `JobProcessor.MAX_CONTENT_PER_SOURCE`. -/
def MAX_CONTENT_PER_SOURCE : Nat := 10000

/-- Incremental main-page input:
`"Main page content:\n" + page_text[:MAX_CONTENT_PER_SOURCE]`. -/
def incrMainIn (page_text : Str) : Str := mainHeader ++ page_text.take MAX_CONTENT_PER_SOURCE

/-- Incremental PDF input: header plus `pdf_text[:MAX_CONTENT_PER_SOURCE]`. -/
def incrPdfIn (l : Link) (t : Str) : Str :=
  "PDF content from ".toList ++ [sqChar] ++ linkTitleOrUrl l ++ [sqChar] ++ ":\n".toList
    ++ t.take MAX_CONTENT_PER_SOURCE

/-- Incremental job-detail input: header plus
`linked_page_text[:MAX_CONTENT_PER_SOURCE]`. -/
def incrPageIn (l : Link) (t : Str) : Str :=
  "Job detail page ".toList ++ [sqChar] ++ linkTitleOrUrl l ++ [sqChar] ++ ":\n".toList
    ++ t.take MAX_CONTENT_PER_SOURCE

/-- The incremental `found_on` tag `f"PDF: {pdf_link.title or 'document'}"`. -/
def pdfFoundOn (l : Link) : Str :=
  "PDF: ".toList ++
    (match l.title with
     | some t => if t.isEmpty then "document".toList else t
     | none => "document".toList)

/-- The incremental `found_on` tag `f"Page: {job_link.title or job_link.url}"`. -/
def pageFoundOn (l : Link) : Str := "Page: ".toList ++ linkTitleOrUrl l

/-- The incremental `found_on` tag `'Main page'` of main-page rows. -/
def mainFoundOn : Str := "Main page".toList

/-- The final no-jobs row of `_process_single_entry_incremental`. -/
def noJobsRow (entry : Entry) : TableRow :=
  { location := entry.location
    website := entry.website
    websiteToJobs := orDefault entry.websiteToJobs entry.website
    hasJob := false
    comments := some ("No jobs found".toList) }

/-- The incremental per-PDF step: extract the PDF text (failures and falsy
text contribute nothing), run extraction on its bounded content, and keep
only `hasJob = True` records, tagged with the PDF `found_on`. -/
def incrPdfRows (w : World) (entry : Entry) (scrape_url : Str) (l : Link) : List TableRow :=
  match w.extractPdf l.url with
  | some t =>
    if t.isEmpty then []
    else
      ((extract_multiple_jobs w.llm w.enabled entry.location entry.website
          scrape_url (incrPdfIn l t) none).filter (·.hasJob)).map
        (fun job => create_table_row entry job (some (pdfFoundOn l)))
  | none => []

/-- The incremental per-job-link step: scrape the linked page (failures are
skipped), run extraction on its bounded content, and keep only
`hasJob = True` records, tagged with the page `found_on`. -/
def incrPageRows (w : World) (entry : Entry) (scrape_url : Str) (l : Link) : List TableRow :=
  match w.scrape l.url with
  | .ok (t, _) =>
    ((extract_multiple_jobs w.llm w.enabled entry.location entry.website
        scrape_url (incrPageIn l t) none).filter (·.hasJob)).map
      (fun job => create_table_row entry job (some (pageFoundOn l)))
  | .error _ => []

/-- `JobProcessor._process_single_entry_incremental`: scrape the jobs page
(fatal on failure); extract the main page (keeping positive and negative
records, tagged `'Main page'`); then up to 2 PDFs and up to 2 job-related
links, each contributing only positive records; finally, if no row at all
or no positive row was gathered, replace everything by the single
no-jobs-found row. -/
def process_single_entry_incremental (w : World) (entry : Entry) : List TableRow :=
  match w.scrape (scrapeTarget entry) with
  | .error e => [scrapeErrorRow entry e]
  | .ok (page_text, links) =>
    let mainRows :=
      (extract_multiple_jobs w.llm w.enabled entry.location entry.website
          (scrapeTarget entry) (incrMainIn page_text) none).map
        (fun job => create_table_row entry job (some mainFoundOn))
    let pdfRows := (((pdfLinksOf links).take 2).map
      (incrPdfRows w entry (scrapeTarget entry))).flatten
    let pageRows := (((jobLinksOf links).take 2).map
      (incrPageRows w entry (scrapeTarget entry))).flatten
    let all_rows := mainRows ++ pdfRows ++ pageRows
    if all_rows.isEmpty || !(all_rows.any (·.hasJob)) then [noJobsRow entry]
    else all_rows

/-- `JobProcessor.process_jobs_incrementally` over a given entry list: the
rows of each entry in order (the generator only changes when rows become
visible, not which rows exist). -/
def process_jobs_incrementally (w : World) (entries : List Entry) : List TableRow :=
  (entries.map (process_single_entry_incremental w)).flatten

/-! ## Lemmas about the chunker -/

theorem rfind2_lt {a b : Char} : ∀ {w : Str} {j : Nat}, rfind2 a b w = some j → j + 1 < w.length := by
  intro w
  induction w with
  | nil => intro j h; simp [rfind2] at h
  | cons x t ih =>
    intro j h
    match t with
    | [] => simp [rfind2] at h
    | y :: rest =>
      rw [rfind2] at h
      cases hr : rfind2 a b (y :: rest) with
      | some j0 =>
        rw [hr] at h
        have hj : j0 + 1 = j := by simpa using h
        have h2 := ih hr
        simp only [List.length_cons] at h2 ⊢
        omega
      | none =>
        rw [hr] at h
        by_cases hab : x = a ∧ y = b
        · have hj : j = 0 := by simp [hab] at h; omega
          subst hj
          simp only [List.length_cons]
          omega
        · simp [hab] at h

theorem rfind2_eq_none {a b : Char} {w : Str} (ha : a ∉ w) : rfind2 a b w = none := by
  induction w with
  | nil => rfl
  | cons x t ih =>
    match t with
    | [] => rfl
    | y :: rest =>
      rw [rfind2]
      have hx : x ≠ a := by intro h; exact ha (h ▸ List.mem_cons_self x _)
      have ht : a ∉ y :: rest := fun h => ha (List.mem_cons_of_mem x h)
      rw [ih ht]
      simp [hx]

theorem sentenceEnd_le {B : Nat} {w : Str} (hw : w.length ≤ B) : sentenceEnd B w ≤ B := by
  unfold sentenceEnd
  cases hr : rfind2 '.' ' ' w with
  | none => exact Nat.le_refl B
  | some k =>
    have h2 := rfind2_lt hr
    show (if 0 < k then k + 1 else B) ≤ B
    split
    · omega
    · exact Nat.le_refl B

theorem sentenceEnd_pos {B : Nat} {w : Str} (hB : 1 ≤ B) : 1 ≤ sentenceEnd B w := by
  unfold sentenceEnd
  cases rfind2 '.' ' ' w with
  | none => exact hB
  | some k =>
    show 1 ≤ if 0 < k then k + 1 else B
    split
    · omega
    · exact hB

theorem chunkStep_le {B : Nat} {s : Str} : chunkStep B s ≤ B := by
  unfold chunkStep
  split
  · have hw : (s.take B).length ≤ B := by
      simp [List.length_take]
    cases hr : rfind2 '\n' '\n' (s.take B) with
    | none => exact sentenceEnd_le hw
    | some j =>
      have h2 := rfind2_lt hr
      show (if 0 < j then j else sentenceEnd B (s.take B)) ≤ B
      split
      · omega
      · exact sentenceEnd_le hw
  · exact Nat.le_refl B

theorem chunkStep_pos {B : Nat} {s : Str} (hB : 1 ≤ B) : 1 ≤ chunkStep B s := by
  unfold chunkStep
  split
  · cases rfind2 '\n' '\n' (s.take B) with
    | none => exact sentenceEnd_pos hB
    | some j =>
      show 1 ≤ if 0 < j then j else sentenceEnd B (s.take B)
      split
      · omega
      · exact sentenceEnd_pos hB
  · exact hB

theorem chunkLoopGo_flatten {B : Nat} (hB : 1 ≤ B) :
    ∀ (fuel : Nat) (s : Str), s.length ≤ fuel → (chunkLoopGo fuel B s).flatten = s := by
  intro fuel
  induction fuel with
  | zero =>
    intro s hs
    have : s = [] := List.eq_nil_of_length_eq_zero (Nat.le_zero.mp hs)
    subst this
    rfl
  | succ n ih =>
    intro s hs
    match s with
    | [] => rfl
    | c :: rest =>
      rw [chunkLoopGo]
      have hpos := chunkStep_pos (B := B) (s := c :: rest) hB
      have hlen : ((c :: rest).drop (chunkStep B (c :: rest))).length ≤ n := by
        simp only [List.length_drop]
        simp only [List.length_cons] at hs ⊢
        omega
      rw [List.flatten_cons, ih _ hlen, List.take_append_drop]

theorem chunkLoopGo_sizes {B : Nat} :
    ∀ (fuel : Nat) (s : Str) (seg : Str), seg ∈ chunkLoopGo fuel B s → seg.length ≤ B := by
  intro fuel
  induction fuel with
  | zero => intro s seg h; simp [chunkLoopGo] at h
  | succ n ih =>
    intro s seg h
    match s with
    | [] => simp [chunkLoopGo] at h
    | c :: rest =>
      rw [chunkLoopGo] at h
      rcases List.mem_cons.mp h with h | h
      · subst h
        calc ((c :: rest).take (chunkStep B (c :: rest))).length
            ≤ chunkStep B (c :: rest) := by simp [List.length_take]
          _ ≤ B := chunkStep_le
      · exact ih _ _ h

theorem chunkLoopGo_ne_nil {B fuel : Nat} {c : Char} {rest : Str} :
    chunkLoopGo (fuel + 1) B (c :: rest) ≠ [] := by
  rw [chunkLoopGo]
  simp

/-- C6: for every text and every bound B ≥ 1, `_chunk_content` returns a
non-empty sequence of segments whose in-order concatenation is exactly the
input, and every segment has length at most B. (The code in fact never
emits a segment longer than B — when a natural unit exceeds the window it
is split at the raw window boundary — so the claim's escape clause for
oversized unsplittable units is never exercised, and the stronger bound
holds unconditionally.) -/
theorem chunk_content_correct (content : Str) (B : Nat) (hB : 1 ≤ B) :
    chunk_content content B ≠ [] ∧
    (chunk_content content B).flatten = content ∧
    ∀ seg ∈ chunk_content content B, seg.length ≤ B := by
  unfold chunk_content
  split
  · rename_i hle
    refine ⟨by simp, by simp, ?_⟩
    intro seg hseg
    rw [List.mem_singleton] at hseg
    exact hseg ▸ hle
  · rename_i hgt
    match hc : content with
    | [] => simp at hgt
    | c :: rest =>
      refine ⟨?_, chunkLoopGo_flatten hB _ _ (Nat.le_refl _), fun seg hseg => chunkLoopGo_sizes _ _ _ hseg⟩
      show chunkLoopGo (rest.length + 1) B (c :: rest) ≠ []
      exact chunkLoopGo_ne_nil

/-- Concrete input for the chunker witness. -/
def w6content : Str := "aaaa. bbbb. cccc".toList

theorem chunk_content_correct_witness :
    1 ≤ 6 ∧
    (chunk_content w6content 6 ≠ [] ∧
     (chunk_content w6content 6).flatten = w6content ∧
     ∀ seg ∈ chunk_content w6content 6, seg.length ≤ 6) :=
  ⟨by decide, chunk_content_correct w6content 6 (by decide)⟩

/-! ## Lemmas about the extraction service -/

/-- Two job records have compatible titles when either normalised name is
empty (such records bypass dedup) or the names differ. -/
def nameR (a b : RawJob) : Prop :=
  normName a = [] ∨ normName b = [] ∨ normName a ≠ normName b

theorem mem_dedupAux : ∀ {jobs : List RawJob} {seen : List Str} {j : RawJob},
    j ∈ dedupAux jobs seen → j ∈ jobs := by
  intro jobs
  induction jobs with
  | nil => intro seen j h; simp [dedupAux] at h
  | cons a rest ih =>
    intro seen j h
    simp only [dedupAux] at h
    split at h
    · rcases List.mem_cons.mp h with h | h
      · exact h ▸ List.mem_cons_self a rest
      · exact List.mem_cons_of_mem a (ih h)
    · split at h
      · rcases List.mem_cons.mp h with h | h
        · exact h ▸ List.mem_cons_self a rest
        · exact List.mem_cons_of_mem a (ih h)
      · exact List.mem_cons_of_mem a (ih h)

theorem dedupAux_distinct : ∀ (jobs : List RawJob) (seen : List Str),
    (∀ j ∈ dedupAux jobs seen, normName j ≠ [] → normName j ∉ seen) ∧
    (dedupAux jobs seen).Pairwise nameR := by
  intro jobs
  induction jobs with
  | nil => intro seen; exact ⟨by simp [dedupAux], by simp [dedupAux]⟩
  | cons j rest ih =>
    intro seen
    simp only [dedupAux]
    split
    · rename_i h1
      obtain ⟨ihMem, ihPw⟩ := ih (normName j :: seen)
      constructor
      · intro x hx hxne
        rcases List.mem_cons.mp hx with hx | hx
        · exact hx ▸ h1.2
        · intro hin
          exact (ihMem x hx hxne) (List.mem_cons_of_mem _ hin)
      · refine List.Pairwise.cons ?_ ihPw
        intro b hb
        by_cases hbe : normName b = []
        · exact Or.inr (Or.inl hbe)
        · refine Or.inr (Or.inr ?_)
          intro heq
          exact (ihMem b hb hbe) (by rw [← heq]; exact List.mem_cons_self _ _)
    · split
      · rename_i h1 h2
        obtain ⟨ihMem, ihPw⟩ := ih seen
        constructor
        · intro x hx hxne
          rcases List.mem_cons.mp hx with hx | hx
          · exact absurd (hx ▸ h2) hxne
          · exact ihMem x hx hxne
        · exact List.Pairwise.cons (fun b _ => Or.inl h2) ihPw
      · exact ih seen

theorem runChunks_error_shape (llm : Str → ChunkOutcome) (su : Str) :
    ∀ (cs : List Str) (idx : Nat) (e : RawJob),
      runChunks llm su cs idx = .error e → ∃ m, e = errRecord m := by
  intro cs
  induction cs with
  | nil => intro idx e h; simp [runChunks] at h
  | cons c rest ih =>
    intro idx e h
    cases hl : llm c with
    | ok jobs =>
      simp only [runChunks, hl] at h
      cases hr : runChunks llm su rest (idx + 1) with
      | ok more => rw [hr] at h; simp at h
      | error e2 =>
        rw [hr] at h
        simp only [Except.error.injEq] at h
        exact h ▸ ih (idx + 1) e2 hr
    | connError m =>
      simp only [runChunks, hl, Except.error.injEq] at h
      exact ⟨connErrText ++ m, h.symm⟩
    | parseError m =>
      simp only [runChunks, hl, Except.error.injEq] at h
      exact ⟨parseErrText ++ m, h.symm⟩
    | otherError m =>
      simp only [runChunks, hl, Except.error.injEq] at h
      exact ⟨otherErrText ++ m, h.symm⟩

theorem extract_shape (llm : Str → ChunkOutcome) (enabled : Bool)
    (location website website_to_jobs page_content : Str) (source_url : Option Str) :
    (∃ m, extract_multiple_jobs llm enabled location website website_to_jobs page_content source_url
        = [errRecord m]) ∨
    (extract_multiple_jobs llm enabled location website website_to_jobs page_content source_url ≠ []
     ∧ ∀ j ∈ extract_multiple_jobs llm enabled location website website_to_jobs page_content source_url,
         j.hasJob = true) := by
  unfold extract_multiple_jobs
  by_cases he : enabled
  · simp only [he, Bool.not_true, Bool.false_eq_true, if_false]
    cases hr : runChunks llm (source_url.getD website_to_jobs)
        (chunk_content page_content MAX_CHUNK_LENGTH) 0 with
    | error e =>
      obtain ⟨m, hm⟩ := runChunks_error_shape llm _ _ _ _ hr
      exact Or.inl ⟨m, by rw [hm]⟩
    | ok l =>
      by_cases hd : (dedupJobs (l.filter (·.hasJob))).isEmpty
      · exact Or.inl ⟨keinText, by simp [hd, keinSentinel]⟩
      · have hd2 : (dedupJobs (l.filter (·.hasJob))).isEmpty = false := by
          cases h : (dedupJobs (l.filter (·.hasJob))).isEmpty
          · rfl
          · exact absurd h hd
        refine Or.inr ⟨?_, ?_⟩
        · simp only [hd2, Bool.false_eq_true, if_false]
          intro hnil
          rw [hnil] at hd2
          simp at hd2
        · simp only [hd2, Bool.false_eq_true, if_false]
          intro j hj
          have := mem_dedupAux hj
          exact (List.mem_filter.mp this).2
  · simp only [Bool.not_eq_true] at he
    simp only [he, Bool.not_false, if_true]
    exact Or.inl ⟨disabledText, rfl⟩

theorem extract_ne_nil (llm : Str → ChunkOutcome) (enabled : Bool)
    (location website website_to_jobs page_content : Str) (source_url : Option Str) :
    extract_multiple_jobs llm enabled location website website_to_jobs page_content source_url ≠ [] := by
  rcases extract_shape llm enabled location website website_to_jobs page_content source_url with
    ⟨m, h⟩ | ⟨hne, _⟩
  · rw [h]; simp
  · exact hne

theorem extract_names_pairwise (llm : Str → ChunkOutcome) (enabled : Bool)
    (location website website_to_jobs page_content : Str) (source_url : Option Str) :
    (extract_multiple_jobs llm enabled location website website_to_jobs page_content source_url).Pairwise nameR := by
  unfold extract_multiple_jobs
  by_cases he : enabled
  · simp only [he, Bool.not_true, Bool.false_eq_true, if_false]
    cases hr : runChunks llm (source_url.getD website_to_jobs)
        (chunk_content page_content MAX_CHUNK_LENGTH) 0 with
    | error e => exact List.pairwise_singleton _ _
    | ok l =>
      by_cases hd : (dedupJobs (l.filter (·.hasJob))).isEmpty
      · simp only [hd, if_true]
        exact List.pairwise_singleton _ _
      · have hd2 : (dedupJobs (l.filter (·.hasJob))).isEmpty = false := by
          cases h : (dedupJobs (l.filter (·.hasJob))).isEmpty
          · rfl
          · exact absurd h hd
        simp only [hd2, Bool.false_eq_true, if_false]
        exact (dedupAux_distinct _ []).2
  · simp only [Bool.not_eq_true] at he
    simp only [he, Bool.not_false, if_true]
    exact List.pairwise_singleton _ _

/-! ## C8: date parsing -/

/-- The ISO sample date string of the spec. -/
def isoSample : Str := "2025-12-31".toList

/-- The dotted sample date string of the spec. -/
def dottedSample : Str := "31.12.2025".toList

/-- The slash sample date string of the spec. -/
def slashSample : Str := "31/12/2025".toList

/-- The unparseable sample string of the spec. -/
def notADate : Str := "not a date".toList

/-- C8: the ISO, dotted and slash renderings of 31 December 2025 all parse
to the same calendar date; empty input, `None` and a non-matching string
parse to `None` without error; and `_parse_date` tries ISO, then dotted,
then slash, the first success winning (so a string matching none of the
three yields `None`). -/
theorem parse_date_formats :
    parse_date isoSample = some ⟨2025, 12, 31⟩ ∧
    parse_date dottedSample = some ⟨2025, 12, 31⟩ ∧
    parse_date slashSample = some ⟨2025, 12, 31⟩ ∧
    parse_date [] = none ∧
    parse_date_opt none = none ∧
    parse_date notADate = none ∧
    ∀ s : Str, parse_date s =
      if s.isEmpty then none
      else ((parseYMD '-' s).orElse fun _ => (parseDMY '.' s).orElse fun _ => parseDMY '/' s) := by
  refine ⟨by decide, by decide, by decide, rfl, rfl, by decide, ?_⟩
  intro s
  unfold parse_date
  split
  · rfl
  · cases parseYMD '-' s with
    | some d => rfl
    | none =>
      cases parseDMY '.' s with
      | some d => rfl
      | none => cases parseDMY '/' s with
        | some d => rfl
        | none => rfl

/-! ## C9: occupyStart is dropped by row creation -/

/-- A raw job carrying an extracted `occupyStart` date string. -/
def c9Job : RawJob :=
  { hasJob := true
    name := some ("Sachbearbeiter".toList)
    occupyStart := some ("2025-03-15".toList) }

/-- Entry used for the C9 evaluation. -/
def c9Entry : Entry :=
  { location := "Musterstadt".toList
    website := "http://example.org".toList }

/-- C9: `_create_table_row` never reads the raw record's `occupyStart`
string — the emitted row's `occupyStart` is always absent — although the
prompt instructs the model to extract `occupyStart` and the string parses
to a canonical date the same way `applicationDate` would. -/
theorem create_table_row_drops_occupy_start :
    (∀ (entry : Entry) (job : RawJob) (found_on : Option Str),
        (create_table_row entry job found_on).occupyStart = none) ∧
    (create_table_row c9Entry c9Job none).occupyStart = none ∧
    c9Job.occupyStart = some ("2025-03-15".toList) ∧
    parse_date_opt c9Job.occupyStart = some ⟨2025, 3, 15⟩ := by
  refine ⟨fun entry job found_on => rfl, rfl, rfl, by decide⟩

/-! ## C10: bounded content reaches extraction -/

/-- C10: only bounded prefixes of gathered content reach the extraction
dependency. In batch mode the combined multi-source content is passed as
its first 15000 characters, and each followed job-detail page contributes
only the first 3000 characters of its text; in incremental mode each
source's text enters its extraction input truncated to its first
`MAX_CONTENT_PER_SOURCE = 10000` characters. The final conjunct ties the
batch bound to the pipeline: on a successful scrape, batch extraction is
invoked exactly on `batchExtractIn`. -/
theorem content_truncation_bounds (w : World) (entry : Entry) (page_text t : Str)
    (links : List Link) (l : Link) :
    (batchExtractIn w page_text links).length ≤ 15000 ∧
    batchExtractIn w page_text links = (batchCombined w page_text links).take 15000 ∧
    (t.take 3000).length ≤ 3000 ∧
    jobPageUnitB l t =
      "\nJob detail page ".toList ++ [sqChar] ++ linkTitleOrUrl l ++ [sqChar] ++ ":\n".toList
        ++ t.take 3000 ∧
    MAX_CONTENT_PER_SOURCE = 10000 ∧
    (t.take MAX_CONTENT_PER_SOURCE).length ≤ 10000 ∧
    incrMainIn page_text = mainHeader ++ page_text.take MAX_CONTENT_PER_SOURCE ∧
    incrPdfIn l t =
      "PDF content from ".toList ++ [sqChar] ++ linkTitleOrUrl l ++ [sqChar] ++ ":\n".toList
        ++ t.take MAX_CONTENT_PER_SOURCE ∧
    incrPageIn l t =
      "Job detail page ".toList ++ [sqChar] ++ linkTitleOrUrl l ++ [sqChar] ++ ":\n".toList
        ++ t.take MAX_CONTENT_PER_SOURCE ∧
    (∀ pt ls, w.scrape (scrapeTarget entry) = .ok (pt, ls) →
      process_single_entry w entry =
        (extract_multiple_jobs w.llm w.enabled entry.location entry.website
            (scrapeTarget entry) (batchExtractIn w pt ls) none).map
          (fun job => create_table_row entry job none)) := by
  refine ⟨?_, rfl, ?_, rfl, rfl, ?_, rfl, rfl, rfl, ?_⟩
  · simp [batchExtractIn, List.length_take]
  · simp [List.length_take]
  · simp [List.length_take, MAX_CONTENT_PER_SOURCE]
  · intro pt ls h
    unfold process_single_entry
    rw [h]

/-! ## C5: batch processing is total and converts failures to rows -/

theorem process_single_entry_len (w : World) (entry : Entry) :
    1 ≤ (process_single_entry w entry).length := by
  unfold process_single_entry
  cases h : w.scrape (scrapeTarget entry) with
  | error e => simp
  | ok pr =>
    obtain ⟨pt, links⟩ := pr
    rw [List.length_map]
    exact List.length_pos.mpr
      (extract_ne_nil w.llm w.enabled entry.location entry.website (scrapeTarget entry)
        (batchExtractIn w pt links) none)

/-- C5: batch processing emits at least one row per entry (so never zero
records and, in this total embedding, never an escaping exception), and the
failure modes convert to `hasJob = false` rows carrying an explanation: a
scrape failure becomes the single scrape-error row, and an extraction
failure record (the shape every chunk-level exception handler returns)
becomes a row whose comments carry the error message. -/
theorem process_all_jobs_total (w : World) (entries : List Entry) :
    entries.length ≤ (process_all_jobs w entries).length ∧
    (∀ entry ∈ entries, 1 ≤ (process_single_entry w entry).length) ∧
    (∀ (entry : Entry) (msg : Str), w.scrape (scrapeTarget entry) = .error msg →
      process_single_entry w entry = [scrapeErrorRow entry msg] ∧
      (scrapeErrorRow entry msg).hasJob = false ∧
      (scrapeErrorRow entry msg).comments = some (scrapeErrText ++ msg)) ∧
    (∀ (entry : Entry) (m : Str),
      (create_table_row entry (errRecord m) none).hasJob = false ∧
      (create_table_row entry (errRecord m) none).comments = some m) := by
  refine ⟨?_, fun entry _ => process_single_entry_len w entry, ?_, fun entry m => ⟨rfl, rfl⟩⟩
  · induction entries with
    | nil => simp [process_all_jobs]
    | cons e es ih =>
      have h1 := process_single_entry_len w e
      simp only [process_all_jobs, List.map_cons, List.flatten_cons, List.length_append,
        List.length_cons] at ih ⊢
      omega
  · intro entry msg h
    refine ⟨?_, rfl, rfl⟩
    unfold process_single_entry
    rw [h]

/-! ## C4 and C7: per-chunk failure and sentinel policy inside one extraction call -/

deriving instance DecidableEq for Except

theorem chunkLoopGo_cons_eq (fuel B : Nat) (c : Char) (rest : Str) :
    chunkLoopGo (fuel + 1) B (c :: rest) =
      ((c :: rest).take (chunkStep B (c :: rest)))
        :: chunkLoopGo fuel B ((c :: rest).drop (chunkStep B (c :: rest))) := rfl

theorem chunkLoopGo_nil_eq (fuel B : Nat) : chunkLoopGo fuel B [] = [] := by
  cases fuel
  · rfl
  · rfl

theorem chunkStep_replicate {B n : Nat} (h : B < n) :
    chunkStep B (List.replicate n 'a') = B := by
  unfold chunkStep
  rw [if_pos (by simpa using h)]
  have ht : (List.replicate n 'a').take B = List.replicate B 'a' := by
    rw [List.take_replicate, Nat.min_eq_left h.le]
  have hn : '\n' ∉ List.replicate B 'a' := by
    simp [List.mem_replicate]
  have hd : '.' ∉ List.replicate B 'a' := by
    simp [List.mem_replicate]
  rw [ht, rfind2_eq_none hn]
  unfold sentenceEnd
  rw [rfind2_eq_none hd]

/-- A content of 12001 identical letters: one character over the chunk
bound, containing no paragraph or sentence break, so it chunks into a
12000-character window plus a 1-character remainder. -/
def bigContent : Str := List.replicate 12001 'a'

theorem big_chunks :
    chunk_content bigContent MAX_CHUNK_LENGTH = [List.replicate 12000 'a', ['a']] := by
  have hs1 : chunkStep 12000 (List.replicate 12001 'a') = 12000 :=
    chunkStep_replicate (by norm_num)
  have hs2 : chunkStep 12000 (['a'] : Str) = 12000 := by
    unfold chunkStep
    rw [if_neg (by norm_num)]
  unfold chunk_content MAX_CHUNK_LENGTH bigContent
  rw [if_neg (by rw [List.length_replicate]; norm_num)]
  rw [List.length_replicate]
  rw [show (12001 : Nat) = 12000 + 1 from rfl]
  rw [show List.replicate (12000 + 1) 'a' = 'a' :: List.replicate 12000 'a' from rfl]
  rw [chunkLoopGo_cons_eq]
  rw [show ('a' :: List.replicate 12000 'a') = List.replicate (12000 + 1) 'a' from rfl]
  rw [show (12000 + 1 : Nat) = 12001 from rfl, hs1]
  have htake : (List.replicate 12001 'a').take 12000 = List.replicate 12000 'a' := by
    rw [List.take_replicate]
    norm_num
  have hdrop : (List.replicate 12001 'a').drop 12000 = (['a'] : Str) := by
    rw [List.drop_replicate]
    norm_num
  rw [htake, hdrop]
  rw [show (12000 : Nat) = 11999 + 1 from rfl, chunkLoopGo_cons_eq, hs2]
  norm_num
  rw [chunkLoopGo_nil_eq]

theorem extract_enabled_eq (llm : Str → ChunkOutcome)
    (location website website_to_jobs page_content : Str) (source_url : Option Str) :
    extract_multiple_jobs llm true location website website_to_jobs page_content source_url =
      match runChunks llm (source_url.getD website_to_jobs)
          (chunk_content page_content MAX_CHUNK_LENGTH) 0 with
      | .error e => [e]
      | .ok all_jobs =>
        if (dedupJobs (all_jobs.filter (·.hasJob))).isEmpty then [keinSentinel]
        else dedupJobs (all_jobs.filter (·.hasJob)) := rfl

theorem extract_enabled_none_eq (llm : Str → ChunkOutcome)
    (location website website_to_jobs page_content : Str) :
    extract_multiple_jobs llm true location website website_to_jobs page_content none =
      match runChunks llm website_to_jobs (chunk_content page_content MAX_CHUNK_LENGTH) 0 with
      | .error e => [e]
      | .ok all_jobs =>
        if (dedupJobs (all_jobs.filter (·.hasJob))).isEmpty then [keinSentinel]
        else dedupJobs (all_jobs.filter (·.hasJob)) := rfl

/-- C4 (amended): a JSON-parse or dependency-connection failure while
processing any chunk of a source aborts the whole extraction call for that
source — the call returns exactly the handler's single `hasJob = false`
record, with the error description in `comments`, and the records already
obtained from earlier chunks (as well as any later chunks) are discarded.
The failure is still contained: it becomes a value, never an exception
escaping the call. -/
theorem extract_chunk_error_aborts (llm : Str → ChunkOutcome)
    (location website website_to_jobs page_content : Str) (source_url : Option Str) (e : RawJob)
    (h : runChunks llm (source_url.getD website_to_jobs)
        (chunk_content page_content MAX_CHUNK_LENGTH) 0 = .error e) :
    extract_multiple_jobs llm true location website website_to_jobs page_content source_url = [e] ∧
    e.hasJob = false ∧ ∃ m, e = errRecord m ∧ e.comments = some m := by
  obtain ⟨m, hm⟩ := runChunks_error_shape llm _ _ _ _ h
  refine ⟨?_, by rw [hm]; rfl, m, hm, by rw [hm]; rfl⟩
  rw [extract_enabled_eq, h]

/-- The jobs-page URL used by the concrete C4/C7 scenarios. -/
def wtjM : Str := "http://w.example/jobs".toList

def c4wLLM : Str → ChunkOutcome := fun _ => .parseError ("boom".toList)

def c4wContent : Str := "x".toList

def c4wErr : RawJob := errRecord (parseErrText ++ ("boom".toList))

theorem extract_chunk_error_aborts_witness :
    extract_multiple_jobs c4wLLM true [] [] wtjM c4wContent none = [c4wErr] ∧
    c4wErr.hasJob = false ∧ ∃ m, c4wErr = errRecord m ∧ c4wErr.comments = some m :=
  extract_chunk_error_aborts c4wLLM [] [] wtjM c4wContent none c4wErr (by decide)

def c4job : RawJob :=
  { hasJob := true
    name := some ("Sachbearbeiter".toList)
    foundOn := some ("http://w.example/jobs".toList) }

def c4cLLM : Str → ChunkOutcome := fun s =>
  if s.length ≤ 1 then .parseError ("boom".toList) else .ok [c4job]

set_option maxRecDepth 2000 in
theorem extract_chunk_error_counterexample :
    extract_multiple_jobs c4cLLM true [] [] wtjM bigContent none
      = [errRecord (parseErrText ++ ("boom".toList))] ∧
    ¬ ∃ j ∈ extract_multiple_jobs c4cLLM true [] [] wtjM bigContent none, j.hasJob = true := by
  have h1 : c4cLLM (List.replicate 12000 'a') = .ok [c4job] := by
    unfold c4cLLM
    rw [List.length_replicate]
    rw [if_neg (by norm_num)]
  have h2 : c4cLLM (['a'] : Str) = .parseError ("boom".toList) := by
    unfold c4cLLM
    rw [show (['a'] : Str).length = 1 from rfl]
    rw [if_pos (by norm_num)]
  have hrunT : runChunks c4cLLM wtjM [(['a'] : Str)] 1
      = .error (errRecord (parseErrText ++ ("boom".toList))) := by
    simp only [runChunks, h2]
  have hrun : runChunks c4cLLM wtjM [List.replicate 12000 'a', ['a']] 0
      = .error (errRecord (parseErrText ++ ("boom".toList))) := by
    simp only [runChunks, h1, h2]
  have hout : extract_multiple_jobs c4cLLM true [] [] wtjM bigContent none
      = [errRecord (parseErrText ++ ("boom".toList))] := by
    rw [extract_enabled_none_eq]
    rw [big_chunks, hrun]
  refine ⟨hout, ?_⟩
  rw [hout]
  intro hex
  obtain ⟨j, hj, hpos⟩ := hex
  rw [List.mem_singleton] at hj
  rw [hj] at hpos
  exact absurd hpos (by decide)

/-- C7 (amended): within one extraction call, every `hasJob = false`
chunk result — including the first chunk's retained one — is discarded by
the final positive filter; when no chunk contributes a positive record
(and no chunk raises), the call returns the single canonical sentinel with
the fixed comment, not the first chunk's own record. -/
theorem extract_no_positive_canonical (llm : Str → ChunkOutcome)
    (location website website_to_jobs page_content : Str) (source_url : Option Str)
    (l : List RawJob)
    (hok : runChunks llm (source_url.getD website_to_jobs)
        (chunk_content page_content MAX_CHUNK_LENGTH) 0 = .ok l)
    (hneg : ∀ j ∈ l, j.hasJob = false) :
    extract_multiple_jobs llm true location website website_to_jobs page_content source_url
      = [keinSentinel] := by
  rw [extract_enabled_eq, hok]
  have hf : l.filter (·.hasJob) = [] := by
    rw [List.filter_eq_nil_iff]
    intro a ha
    rw [hneg a ha]
    simp
  show (if (dedupJobs (l.filter (·.hasJob))).isEmpty then [keinSentinel]
        else dedupJobs (l.filter (·.hasJob))) = [keinSentinel]
  rw [hf]
  rfl

def c7wNeg : RawJob := { hasJob := false, comments := some ("nichts".toList) }

def c7wLLM : Str → ChunkOutcome := fun _ => .ok [c7wNeg]

def c7wContent : Str := "y".toList

theorem extract_no_positive_canonical_witness :
    extract_multiple_jobs c7wLLM true [] [] wtjM c7wContent none = [keinSentinel] :=
  extract_no_positive_canonical c7wLLM [] [] wtjM c7wContent none [c7wNeg]
    (by decide) (by decide)

def c7negA : RawJob := { hasJob := false, comments := some ("erster Chunk leer".toList) }

def c7negB : RawJob := { hasJob := false, comments := some ("zweiter Chunk leer".toList) }

def c7cLLM : Str → ChunkOutcome := fun s =>
  if s.length ≤ 1 then .ok [c7negB] else .ok [c7negA]

set_option maxRecDepth 2000 in
theorem extract_first_chunk_sentinel_counterexample :
    extract_multiple_jobs c7cLLM true [] [] wtjM bigContent none = [keinSentinel] ∧
    extract_multiple_jobs c7cLLM true [] [] wtjM bigContent none ≠ [c7negA] ∧
    keinSentinel.comments = some keinText ∧ c7negA.comments ≠ some keinText := by
  have h1 : c7cLLM (List.replicate 12000 'a') = .ok [c7negA] := by
    unfold c7cLLM
    rw [List.length_replicate]
    rw [if_neg (by norm_num)]
  have h2 : c7cLLM (['a'] : Str) = .ok [c7negB] := by
    unfold c7cLLM
    rw [show (['a'] : Str).length = 1 from rfl]
    rw [if_pos (by norm_num)]
  have hrun : runChunks c7cLLM wtjM [List.replicate 12000 'a', ['a']] 0 = .ok [c7negA] := by
    simp only [runChunks, h1, h2]
    decide
  have hout : extract_multiple_jobs c7cLLM true [] [] wtjM bigContent none = [keinSentinel] := by
    rw [extract_enabled_none_eq]
    rw [big_chunks, hrun]
    decide
  refine ⟨hout, ?_, rfl, by decide⟩
  rw [hout]
  decide

/-! ## C1: title deduplication scope -/

theorem process_batch_ok_eq (w : World) (entry : Entry) (pt : Str) (links : List Link)
    (hs : w.scrape (scrapeTarget entry) = .ok (pt, links)) :
    process_single_entry w entry =
      (extract_multiple_jobs w.llm w.enabled entry.location entry.website
          (scrapeTarget entry) (batchExtractIn w pt links) none).map
        (fun job => create_table_row entry job none) := by
  unfold process_single_entry
  rw [hs]

theorem process_batch_err_eq (w : World) (entry : Entry) (msg : Str)
    (hs : w.scrape (scrapeTarget entry) = .error msg) :
    process_single_entry w entry = [scrapeErrorRow entry msg] := by
  unfold process_single_entry
  rw [hs]


/-- The dedup key of a row's title, matching `normName` on the raw job. -/
def nameKey (o : Option Str) : Str := pyStrip (pyLower (o.getD []))

/-- The PDF link of the C1 scenarios. -/
def c1pdfLink : Link :=
  { url := "http://w.example/a.pdf".toList
    link_type := pdfType
    title := some ("T".toList) }

/-- The entry of the C1 incremental scenario. -/
def c1Entry : Entry :=
  { location := "Ort".toList
    website := "http://w.example".toList
    websiteToJobs := some wtjM }

/-- First job title of the scenario. -/
def c1jS : RawJob :=
  { hasJob := true, name := some ("Sachbearbeiter".toList), foundOn := some wtjM }

/-- Second job title of the scenario. -/
def c1jK : RawJob :=
  { hasJob := true, name := some ("Sekretaer".toList), foundOn := some wtjM }

/-- Main-page text of the scenario. -/
def c1Main : Str := "MAIN".toList

/-- PDF text of the scenario. -/
def c1Pdf : Str := "PDFTEXT".toList

/-- A world where the main page yields two distinct titles and the PDF
yields a duplicate of the first. -/
def c1World : World :=
  { scrape := fun u => if u = wtjM then .ok (c1Main, [c1pdfLink]) else .error ("kein Netz".toList)
    extractPdf := fun _ => some c1Pdf
    llm := fun s =>
      if s = incrMainIn c1Main then .ok [c1jS, c1jK]
      else if s = incrPdfIn c1pdfLink c1Pdf then .ok [c1jS]
      else .ok [] }

/-- A world for the batch form of the scenario: one extraction call over
the combined main-page and PDF content yields the two distinct titles plus
a duplicate of the first. -/
def c1bWorld : World :=
  { scrape := fun u => if u = wtjM then .ok (c1Main, [c1pdfLink]) else .error ("kein Netz".toList)
    extractPdf := fun _ => some c1Pdf
    llm := fun _ => .ok [c1jS, c1jK, c1jS] }

/-- C1 (amended): deduplication by normalised title happens within one
extraction-service call (second conjunct). Batch mode combines all of an
entry's sources into a single call, so within one entry's batch output the
non-empty normalised job titles are pairwise distinct and empty titles
bypass dedup (first conjunct); in particular the spec's scenario — two
distinct titles plus a duplicate of the first — emits exactly 2 records in
batch mode (third conjunct). Incremental mode runs one call per source, so
a duplicate title arriving from a second source is not removed (see the
counterexample). -/
theorem batch_titles_unique (w : World) (entry : Entry) :
    ((process_single_entry w entry).Pairwise fun a b =>
      nameKey a.name = [] ∨ nameKey b.name = [] ∨ nameKey a.name ≠ nameKey b.name) ∧
    (∀ (pc : Str) (su : Option Str),
      (extract_multiple_jobs w.llm w.enabled entry.location entry.website
        (scrapeTarget entry) pc su).Pairwise nameR) ∧
    (process_single_entry c1bWorld c1Entry).length = 2 ∧
    ((process_single_entry c1bWorld c1Entry).map fun r => r.name)
      = [some ("Sachbearbeiter".toList), some ("Sekretaer".toList)] := by
  refine ⟨?_, ?_, by decide, by decide⟩
  · cases hs : w.scrape (scrapeTarget entry) with
    | error e =>
      rw [process_batch_err_eq w entry e hs]
      exact List.pairwise_singleton _ _
    | ok pr =>
      obtain ⟨pt, links⟩ := pr
      rw [process_batch_ok_eq w entry pt links hs]
      exact (extract_names_pairwise w.llm w.enabled entry.location entry.website
          (scrapeTarget entry) (batchExtractIn w pt links) none).map _
        (fun a b hab => hab)
  · intro pc su
    exact extract_names_pairwise w.llm w.enabled entry.location entry.website
      (scrapeTarget entry) pc su

theorem incremental_duplicate_title_counterexample :
    ((process_single_entry_incremental c1World c1Entry).map fun r => r.name)
      = [some ("Sachbearbeiter".toList), some ("Sekretaer".toList),
         some ("Sachbearbeiter".toList)] ∧
    ¬ ((process_single_entry_incremental c1World c1Entry).Pairwise fun a b =>
        nameKey a.name = [] ∨ nameKey b.name = [] ∨ nameKey a.name ≠ nameKey b.name) := by
  constructor
  · decide
  · decide

/-! ## C3: sentinel policy per entry -/

/-- The incremental accumulator before the final no-jobs check. -/
def incrAllRows (w : World) (entry : Entry) (pt : Str) (links : List Link) : List TableRow :=
  (extract_multiple_jobs w.llm w.enabled entry.location entry.website
      (scrapeTarget entry) (incrMainIn pt) none).map
    (fun job => create_table_row entry job (some mainFoundOn))
  ++ (((pdfLinksOf links).take 2).map (incrPdfRows w entry (scrapeTarget entry))).flatten
  ++ (((jobLinksOf links).take 2).map (incrPageRows w entry (scrapeTarget entry))).flatten

theorem process_incremental_ok_eq (w : World) (entry : Entry) (pt : Str) (links : List Link)
    (hs : w.scrape (scrapeTarget entry) = .ok (pt, links)) :
    process_single_entry_incremental w entry =
      if (incrAllRows w entry pt links).isEmpty
          || !((incrAllRows w entry pt links).any (·.hasJob)) then [noJobsRow entry]
      else incrAllRows w entry pt links := by
  unfold process_single_entry_incremental incrAllRows
  rw [hs]

theorem process_incremental_err_eq (w : World) (entry : Entry) (msg : Str)
    (hs : w.scrape (scrapeTarget entry) = .error msg) :
    process_single_entry_incremental w entry = [scrapeErrorRow entry msg] := by
  unfold process_single_entry_incremental
  rw [hs]

theorem mem_incrPdfRows_pos {w : World} {entry : Entry} {su : Str} {l : Link} {r : TableRow}
    (h : r ∈ incrPdfRows w entry su l) : r.hasJob = true := by
  unfold incrPdfRows at h
  split at h
  · split at h
    · exact absurd h (List.not_mem_nil r)
    · obtain ⟨job, hjob, hcreate⟩ := List.mem_map.mp h
      rw [← hcreate]
      exact (List.mem_filter.mp hjob).2
  · exact absurd h (List.not_mem_nil r)

theorem mem_incrPageRows_pos {w : World} {entry : Entry} {su : Str} {l : Link} {r : TableRow}
    (h : r ∈ incrPageRows w entry su l) : r.hasJob = true := by
  unfold incrPageRows at h
  split at h
  · obtain ⟨job, hjob, hcreate⟩ := List.mem_map.mp h
    rw [← hcreate]
    exact (List.mem_filter.mp hjob).2
  · exact absurd h (List.not_mem_nil r)

theorem filter_neg_pdfRows (w : World) (entry : Entry) (su : Str) (ls : List Link) :
    ((ls.map (incrPdfRows w entry su)).flatten).filter (fun r => !r.hasJob) = [] := by
  rw [List.filter_eq_nil_iff]
  intro r hr
  obtain ⟨part, hpart, hrp⟩ := List.mem_flatten.mp hr
  obtain ⟨l, _, hl⟩ := List.mem_map.mp hpart
  rw [mem_incrPdfRows_pos (hl ▸ hrp)]
  simp

theorem filter_neg_pageRows (w : World) (entry : Entry) (su : Str) (ls : List Link) :
    ((ls.map (incrPageRows w entry su)).flatten).filter (fun r => !r.hasJob) = [] := by
  rw [List.filter_eq_nil_iff]
  intro r hr
  obtain ⟨part, hpart, hrp⟩ := List.mem_flatten.mp hr
  obtain ⟨l, _, hl⟩ := List.mem_map.mp hpart
  rw [mem_incrPageRows_pos (hl ▸ hrp)]
  simp

/-- C3 (amended): in batch mode an entry's rows are either all positive or
exactly one negative record, so a sentinel never coexists with positive
records there. In incremental mode, at most one `hasJob = false` record
ever appears per entry, and when the entry yields no positive record at
all its output is exactly one record (the no-jobs sentinel, or the
scrape-error row); but a main-page `hasJob = false` record may coexist
with positive records from secondary sources (see the counterexample). -/
theorem sentinel_policy_per_entry (w : World) (entry : Entry) :
    ((∀ r ∈ process_single_entry w entry, r.hasJob = true) ∨
      (∃ r, process_single_entry w entry = [r] ∧ r.hasJob = false)) ∧
    ((process_single_entry_incremental w entry).filter (fun r => !r.hasJob)).length ≤ 1 ∧
    ((process_single_entry_incremental w entry).any (·.hasJob) = false →
      process_single_entry_incremental w entry = [noJobsRow entry] ∨
      ∃ m, process_single_entry_incremental w entry = [scrapeErrorRow entry m]) := by
  refine ⟨?_, ?_⟩
  · cases hs : w.scrape (scrapeTarget entry) with
    | error e =>
      rw [process_batch_err_eq w entry e hs]
      exact Or.inr ⟨scrapeErrorRow entry e, rfl, rfl⟩
    | ok pr =>
      obtain ⟨pt, links⟩ := pr
      rw [process_batch_ok_eq w entry pt links hs]
      rcases extract_shape w.llm w.enabled entry.location entry.website (scrapeTarget entry)
          (batchExtractIn w pt links) none with ⟨m, hm⟩ | ⟨_, hpos⟩
      · rw [hm]
        exact Or.inr ⟨create_table_row entry (errRecord m) none, rfl, rfl⟩
      · refine Or.inl ?_
        intro r hr
        obtain ⟨job, hjob, hcreate⟩ := List.mem_map.mp hr
        rw [← hcreate]
        exact hpos job hjob
  · cases hs : w.scrape (scrapeTarget entry) with
    | error e =>
      rw [process_incremental_err_eq w entry e hs]
      exact ⟨by simp [scrapeErrorRow], fun _ => Or.inr ⟨e, rfl⟩⟩
    | ok pr =>
      obtain ⟨pt, links⟩ := pr
      rw [process_incremental_ok_eq w entry pt links hs]
      split
      · exact ⟨by simp [noJobsRow], fun _ => Or.inl rfl⟩
      · rename_i hcond
        constructor
        · unfold incrAllRows
          rw [List.filter_append, List.filter_append, List.length_append, List.length_append,
            filter_neg_pdfRows, filter_neg_pageRows]
          simp only [List.length_nil, Nat.add_zero]
          rcases extract_shape w.llm w.enabled entry.location entry.website (scrapeTarget entry)
              (incrMainIn pt) none with ⟨m, hm⟩ | ⟨_, hpos⟩
          · rw [hm]
            simp [create_table_row, errRecord]
          · have : ((extract_multiple_jobs w.llm w.enabled entry.location entry.website
                (scrapeTarget entry) (incrMainIn pt) none).map
                (fun job => create_table_row entry job (some mainFoundOn))).filter
                (fun r => !r.hasJob) = [] := by
              rw [List.filter_eq_nil_iff]
              intro r hr
              obtain ⟨job, hjob, hcreate⟩ := List.mem_map.mp hr
              have : r.hasJob = true := by rw [← hcreate]; exact hpos job hjob
              rw [this]
              simp
            rw [this]
            simp
        · intro hany
          rw [hany] at hcond
          simp at hcond

/-- PDF link of the C3 coexistence scenario. -/
def c3pdfLink : Link :=
  { url := "http://c3.example/stellen.pdf".toList
    link_type := pdfType
    title := some ("S".toList) }

/-- Entry of the C3 coexistence scenario. -/
def c3Entry : Entry :=
  { location := "Dorf".toList
    website := "http://c3.example".toList }

/-- Positive job found only in the PDF of the C3 scenario. -/
def c3job : RawJob :=
  { hasJob := true
    name := some ("Buerokraft".toList)
    foundOn := some ("http://c3.example".toList) }

/-- Main-page text of the C3 scenario. -/
def c3Main : Str := "LEER".toList

/-- PDF text of the C3 scenario. -/
def c3Pdf : Str := "STELLE".toList

/-- A world whose main page yields no job while its PDF yields one. -/
def c3World : World :=
  { scrape := fun u => if u = c3Entry.website then .ok (c3Main, [c3pdfLink])
      else .error ("netz".toList)
    extractPdf := fun _ => some c3Pdf
    llm := fun s =>
      if s = incrPdfIn c3pdfLink c3Pdf then .ok [c3job] else .ok [] }

theorem incremental_sentinel_coexists_counterexample :
    ((process_single_entry_incremental c3World c3Entry).map fun r => r.hasJob)
      = [false, true] ∧
    (process_single_entry_incremental c3World c3Entry).length = 2 := by
  constructor
  · decide
  · decide

/-! ## C2: batch versus incremental per-entry routines -/

/-- Every field of a row except `foundOn` and `comments`. -/
def rowCore (r : TableRow) :
    Str × Str × Str × Bool × Option Str × Option Str × Option Bool × Option Str
      × Option Str × Option PyDate × Option PyDate :=
  (r.location, r.website, r.websiteToJobs, r.hasJob, r.name, r.salary,
   r.homeOfficeOption, r.period, r.employmentType, r.applicationDate, r.occupyStart)

/-- C2 (amended): the two per-entry routines are not equivalent in general
(see the counterexample: they differ in `foundOn` labels, sentinel
comments, per-source caps and content bounds). They do agree on every
field except `foundOn` and `comments` for an entry whose jobs page yields
no links and whose page text fits within the incremental per-source bound:
then both routines drive one extraction call over identical content. -/
theorem batch_incremental_core_agree (w : World) (entry : Entry) (pt : Str)
    (hs : w.scrape (scrapeTarget entry) = .ok (pt, []))
    (hlen : pt.length ≤ MAX_CONTENT_PER_SOURCE) :
    (process_single_entry w entry).map rowCore
      = (process_single_entry_incremental w entry).map rowCore := by
  have htake : pt.take MAX_CONTENT_PER_SOURCE = pt := List.take_of_length_le hlen
  have hmainIn : incrMainIn pt = mainPageUnit pt := by
    unfold incrMainIn mainPageUnit
    rw [htake]
  have hbatchIn : batchExtractIn w pt [] = mainPageUnit pt := by
    unfold batchExtractIn batchCombined batchContentUnits
    simp only [pdfLinksOf, jobLinksOf, List.filter_nil, List.take_nil, List.filterMap_nil,
      List.append_nil]
    rw [show List.intercalate joinSep [mainPageUnit pt] = mainPageUnit pt by
      simp [List.intercalate]]
    apply List.take_of_length_le
    unfold mainPageUnit mainHeader
    rw [List.length_append]
    rw [show ("Main page content:\n".toList).length = 19 from rfl]
    have hp : pt.length ≤ 10000 := hlen
    omega
  rw [process_batch_ok_eq w entry pt [] hs, process_incremental_ok_eq w entry pt [] hs]
  unfold incrAllRows
  simp only [pdfLinksOf, jobLinksOf, List.filter_nil, List.take_nil, List.map_nil,
    List.flatten_nil, List.append_nil]
  rw [hmainIn, hbatchIn]
  rcases extract_shape w.llm w.enabled entry.location entry.website (scrapeTarget entry)
      (mainPageUnit pt) none with ⟨m, hm⟩ | ⟨hne, hpos⟩
  · rw [hm]
    simp only [List.map_cons, List.map_nil, List.isEmpty_cons, List.any_cons, List.any_nil]
    rw [show (create_table_row entry (errRecord m) (some mainFoundOn)).hasJob = false from rfl]
    simp
    rfl
  · have hanyT : ((extract_multiple_jobs w.llm w.enabled entry.location entry.website
        (scrapeTarget entry) (mainPageUnit pt) none).map
        (fun job => create_table_row entry job (some mainFoundOn))).any (·.hasJob) = true := by
      rw [List.any_eq_true]
      obtain ⟨j0, hj0⟩ := List.exists_mem_of_ne_nil _ hne
      refine ⟨create_table_row entry j0 (some mainFoundOn), List.mem_map_of_mem _ hj0, ?_⟩
      show (create_table_row entry j0 (some mainFoundOn)).hasJob = true
      exact hpos j0 hj0
    have hmapne : ((extract_multiple_jobs w.llm w.enabled entry.location entry.website
        (scrapeTarget entry) (mainPageUnit pt) none).map
        (fun job => create_table_row entry job (some mainFoundOn))) ≠ [] := by
      intro hnil
      exact hne (List.map_eq_nil_iff.mp hnil)
    have hempty : ((extract_multiple_jobs w.llm w.enabled entry.location entry.website
        (scrapeTarget entry) (mainPageUnit pt) none).map
        (fun job => create_table_row entry job (some mainFoundOn))).isEmpty = false := by
      cases hE : ((extract_multiple_jobs w.llm w.enabled entry.location entry.website
          (scrapeTarget entry) (mainPageUnit pt) none).map
          (fun job => create_table_row entry job (some mainFoundOn))).isEmpty
      · rfl
      · exact absurd (List.isEmpty_iff.mp hE) hmapne
    rw [hanyT, hempty]
    simp only [Bool.not_true, Bool.or_false, Bool.false_eq_true, if_false]
    rw [List.map_map, List.map_map]
    apply List.map_congr_left
    intro j hj
    rfl

/-- Entry of the concrete C2 scenario (no jobs link: the main website is
scraped). -/
def c2Entry : Entry :=
  { location := "Stadt".toList
    website := "http://c2.example".toList }

/-- The single positive job of the C2 scenario, with an http `foundOn`. -/
def c2Job : RawJob :=
  { hasJob := true
    name := some ("Verwaltungsassistent".toList)
    foundOn := some ("http://c2.example/j".toList) }

/-- Main-page text of the C2 scenario. -/
def c2Main : Str := "hallo".toList

/-- A linkless world whose single extraction call yields one positive job. -/
def c2World : World :=
  { scrape := fun u => if u = c2Entry.website then .ok (c2Main, []) else .error ("netz".toList)
    extractPdf := fun _ => none
    llm := fun _ => .ok [c2Job] }

theorem batch_incremental_core_agree_witness :
    (process_single_entry c2World c2Entry).map rowCore
      = (process_single_entry_incremental c2World c2Entry).map rowCore :=
  batch_incremental_core_agree c2World c2Entry c2Main (by decide) (by decide)

theorem batch_incremental_differ_counterexample :
    (process_single_entry c2World c2Entry).length = 1 ∧
    (process_single_entry_incremental c2World c2Entry).length = 1 ∧
    process_single_entry c2World c2Entry ≠ process_single_entry_incremental c2World c2Entry ∧
    ((process_single_entry c2World c2Entry).map fun r => r.foundOn)
      = [some ("http://c2.example/j".toList)] ∧
    ((process_single_entry_incremental c2World c2Entry).map fun r => r.foundOn)
      = [some mainFoundOn] := by
  refine ⟨by decide, by decide, by decide, by decide, by decide⟩
